import Mathlib

/-!
# Verification of the `iplookup` concurrent HTTP server core (src/main.rs)

Shallow embedding of the three core components of the server:

* the sliding-window rate limiter (`check_rate_limit`, src/main.rs:266-295),
* the incremental request framer (`read_request`, src/main.rs:98-143),
* the fixed-size thread pool worker loop (`ThreadPool::new`, src/main.rs:30-50),

together with theorems settling the specified properties.

Modelling conventions:

* `Instant` timestamps become `Nat` seconds; `Instant::now().duration_since(t)`
  is `now - t` on `Nat`, whose truncation at zero matches the saturating
  behaviour of `Instant::duration_since` when `t` is in the future.
* The `HashMap<String, Vec<Instant>>` behind the limiter's mutex becomes an
  association list `List (String × List Nat)`; `entry(ip).or_default()`
  followed by in-place mutation becomes lookup-with-default plus `setKey`.
* Bytes are `Nat` (values < 256 in any real stream); a TCP stream is the list
  of byte chunks successively returned by `stream.read` (each at most the
  8192-byte read buffer), with an empty chunk standing for a `read` that
  returned `0` (peer closed).
* `usize` subtraction `request.len() - body_start` is modelled with the
  release-profile wrapping semantics `(2^64 + a - b) % 2^64` (in a debug
  build the same expression aborts on underflow instead).
-/

namespace IpLookup

/-! ## Rate limiter (`check_rate_limit`, src/main.rs:266-295) -/

/-- The limiter's shared map: client key → recorded timestamps. -/
abbrev RMap := List (String × List Nat)

/-- `let window = Duration::from_secs(60)` (src/main.rs:277). -/
def windowSecs : Nat := 60

/-- `let max_requests = 30` (src/main.rs:279). -/
def maxRequests : Nat := 30

/-- Association-list lookup, the embedding of reading `map[ip]`. -/
def lookupKey : RMap → String → Option (List Nat)
  | [], _ => none
  | (k, v) :: m, ip => if k == ip then some v else lookupKey m ip

/-- Association-list update, the embedding of writing through
`map.entry(ip.to_owned()).or_default()`: replace the first binding of the key,
or append a fresh binding when the key is absent. -/
def setKey : RMap → String → List Nat → RMap
  | [], ip, l => [(ip, l)]
  | (k, v) :: m, ip, l => if k == ip then (k, l) :: m else (k, v) :: setKey m ip l

/-- `now.duration_since(t) < window` — the retention test of
`timestamps.retain(|&t| now.duration_since(t) < window)` (src/main.rs:285). -/
def inWindow (now t : Nat) : Bool := decide (now - t < windowSecs)

/-- `check_rate_limit` (src/main.rs:266-295), after the lock has been acquired
successfully: fetch-or-create the key's timestamp list, evict entries outside
the window, deny without recording when the remaining count is at the limit,
otherwise record `now` and allow. Returns the result together with the updated
map (the eviction mutates the map even on the deny path). -/
def checkRateLimit (m : RMap) (ip : String) (now : Nat) : Bool × RMap :=
  let ts0 := (lookupKey m ip).getD []
  let ts := ts0.filter (inWindow now)
  if maxRequests ≤ ts.length then (false, setKey m ip ts)
  else (true, setKey m ip (ts ++ [now]))

/-- `check_rate_limit` including the lock acquisition (src/main.rs:269-272):
`limiter.lock()` returning `Err` (poisoned mutex) makes the function return
`true` at once, touching nothing. -/
def checkRateLimitEntry (poisoned : Bool) (m : RMap) (ip : String) (now : Nat) :
    Bool × RMap :=
  if poisoned then (true, m) else checkRateLimit m ip now

/-- What `handle_connection` does with the limiter verdict
(src/main.rs:161-169): on a denied check it sends the fixed 429 response and
returns; otherwise connection handling proceeds. -/
inductive ConnStep where
  | rejected (status ctype body : String)
  | proceed
deriving DecidableEq, Repr

/-- The rate-limit gate of `handle_connection` (src/main.rs:161-169). -/
def handleRateGate (m : RMap) (ip : String) (now : Nat) : ConnStep × RMap :=
  let r := checkRateLimit m ip now
  if r.1 then (ConnStep.proceed, r.2)
  else (ConnStep.rejected "429 Too Many Requests" "text/plain" "rate limit exceeded", r.2)

/-- Runs the rate-limit gate over a sequence of arrivals (one key), threading
the limiter map; returns the per-connection outcomes and the final map. -/
def runGate (m : RMap) (ip : String) : List Nat → List ConnStep × RMap
  | [] => ([], m)
  | t :: ts =>
    let r := handleRateGate m ip t
    let rest := runGate r.2 ip ts
    (r.1 :: rest.1, rest.2)

/-- `send_response` (src/main.rs:297-309): the exact bytes written back. -/
def sendResponse (status ctype body : String) : String :=
  "HTTP/1.1 " ++ status ++ "\r\nContent-Type: " ++ ctype ++ "\r\nContent-Length: "
    ++ toString body.utf8ByteSize ++ "\r\nConnection: close\r\n\r\n" ++ body

/-! ### Basic lemmas about the map embedding -/

theorem lookupKey_setKey_self (m : RMap) (ip : String) (l : List Nat) :
    lookupKey (setKey m ip l) ip = some l := by
  induction m with
  | nil => simp [setKey, lookupKey]
  | cons kv m ih =>
    obtain ⟨k, v⟩ := kv
    by_cases h : k == ip
    · simp [setKey, lookupKey, h]
    · simp only [setKey, lookupKey, h, if_neg, Bool.false_eq_true, if_false, ih]

theorem lookupKey_setKey_other (m : RMap) (ip k : String) (l : List Nat)
    (h : ip ≠ k) : lookupKey (setKey m ip l) k = lookupKey m k := by
  induction m with
  | nil => simp [setKey, lookupKey, beq_eq_false_iff_ne.mpr h]
  | cons kv m ih =>
    obtain ⟨k', v⟩ := kv
    by_cases hk : k' == ip
    · have hk' : k' = ip := eq_of_beq hk
      have hne : (k' == k) = false := beq_eq_false_iff_ne.mpr (by rw [hk']; exact h)
      simp [setKey, lookupKey, hk, hne]
    · by_cases hk2 : k' == k
      · simp [setKey, lookupKey, hk, hk2]
      · simp [setKey, lookupKey, hk, hk2, ih]

theorem setKey_setKey (m : RMap) (ip : String) (a b : List Nat) :
    setKey (setKey m ip a) ip b = setKey m ip b := by
  induction m with
  | nil => simp [setKey]
  | cons kv m ih =>
    obtain ⟨k, v⟩ := kv
    by_cases h : k == ip
    · simp [setKey, h]
    · simp [setKey, h, ih]

/-- Evicting with an older `now` and then with a newer `now'` is the same as
evicting with the newer one alone: a timestamp outside the window at `now`
stays outside it at any `now' ≥ now`. -/
theorem filter_inWindow_mono (l : List Nat) (now now' : Nat) (h : now ≤ now') :
    (l.filter (inWindow now)).filter (inWindow now') = l.filter (inWindow now') := by
  induction l with
  | nil => rfl
  | cons a l ih =>
    cases ha : inWindow now a with
    | true =>
      cases hb : inWindow now' a with
      | true => simp [List.filter_cons, ha, hb, ih]
      | false => simp [List.filter_cons, ha, hb, ih]
    | false =>
      have ha' : inWindow now' a = false := by
        simp only [inWindow, windowSecs, decide_eq_false_iff_not] at ha ⊢
        omega
      simp [List.filter_cons, ha, ha', ih]

/-- A `check` for key `a` never changes the stored list of a different key. -/
theorem lookupKey_check_other (m : RMap) (a b : String) (now : Nat) (hne : a ≠ b) :
    lookupKey (checkRateLimit m a now).2 b = lookupKey m b := by
  unfold checkRateLimit
  by_cases hc :
      maxRequests ≤ (((lookupKey m a).getD []).filter (inWindow now)).length
  · simp only [hc, if_true]
    exact lookupKey_setKey_other m a b _ hne
  · simp only [hc, if_false]
    exact lookupKey_setKey_other m a b _ hne

/-- C6: whenever `check()` returns false for a key, no timestamp is appended
for that key — the stored list after the denied check is exactly the evicted
old list — and a later check for the same key behaves (result and state)
exactly as if the denied attempt had never been made. -/
theorem rl_deny_never_recorded (m : RMap) (ip : String) (now now' : Nat)
    (hdeny : (checkRateLimit m ip now).1 = false) (hle : now ≤ now') :
    lookupKey (checkRateLimit m ip now).2 ip
      = some (((lookupKey m ip).getD []).filter (inWindow now)) ∧
    checkRateLimit (checkRateLimit m ip now).2 ip now' = checkRateLimit m ip now' := by
  have hts : maxRequests ≤ (((lookupKey m ip).getD []).filter (inWindow now)).length := by
    by_contra hc
    simp [checkRateLimit, hc] at hdeny
  have heq : checkRateLimit m ip now
      = (false, setKey m ip (((lookupKey m ip).getD []).filter (inWindow now))) := by
    simp [checkRateLimit, hts]
  rw [heq]
  refine ⟨lookupKey_setKey_self m ip _, ?_⟩
  simp only [checkRateLimit, lookupKey_setKey_self, Option.getD_some,
    filter_inWindow_mono _ now now' hle, setKey_setKey]

/-- C6 witness: a key already holding 30 fresh timestamps is denied, nothing
is recorded, and an immediately following check is unaffected. -/
theorem rl_deny_never_recorded_witness :
    lookupKey (checkRateLimit [("10.0.0.1", List.replicate 30 0)] "10.0.0.1" 0).2 "10.0.0.1"
      = some ((List.replicate 30 0).filter (inWindow 0)) ∧
    checkRateLimit (checkRateLimit [("10.0.0.1", List.replicate 30 0)] "10.0.0.1" 0).2
        "10.0.0.1" 0
      = checkRateLimit [("10.0.0.1", List.replicate 30 0)] "10.0.0.1" 0 := by
  have h := rl_deny_never_recorded [("10.0.0.1", List.replicate 30 0)] "10.0.0.1" 0 0
    (by decide) (le_refl 0)
  simpa using h

/-- C7: after any `check()` for a key, every timestamp stored for that key is
within the 60-second window of that check's `now`; and every previously
stored timestamp whose age reaches the window is gone from the key's list
after that check. -/
theorem rl_window_invariant (m : RMap) (ip : String) (now : Nat) :
    (∀ t ∈ (lookupKey (checkRateLimit m ip now).2 ip).getD [], now - t < windowSecs) ∧
    (∀ t ∈ (lookupKey m ip).getD [], windowSecs ≤ now - t →
      t ∉ (lookupKey (checkRateLimit m ip now).2 ip).getD []) := by
  by_cases hc :
      maxRequests ≤ (((lookupKey m ip).getD []).filter (inWindow now)).length
  · have heq : checkRateLimit m ip now
        = (false, setKey m ip (((lookupKey m ip).getD []).filter (inWindow now))) := by
      simp [checkRateLimit, hc]
    rw [heq]
    simp only [lookupKey_setKey_self, Option.getD_some]
    constructor
    · intro t ht
      have := (List.mem_filter.mp ht).2
      simpa [inWindow] using this
    · intro t _ hage hmem
      have := (List.mem_filter.mp hmem).2
      simp only [inWindow, windowSecs, decide_eq_true_eq] at this
      simp only [windowSecs] at hage
      omega
  · have heq : checkRateLimit m ip now
        = (true, setKey m ip ((((lookupKey m ip).getD []).filter (inWindow now)) ++ [now])) := by
      simp [checkRateLimit, hc]
    rw [heq]
    simp only [lookupKey_setKey_self, Option.getD_some]
    constructor
    · intro t ht
      rcases List.mem_append.mp ht with h | h
      · have := (List.mem_filter.mp h).2
        simpa [inWindow] using this
      · have : t = now := by simpa using h
        subst this
        simp [windowSecs]
    · intro t _ hage hmem
      rcases List.mem_append.mp hmem with h | h
      · have := (List.mem_filter.mp h).2
        simp only [inWindow, windowSecs, decide_eq_true_eq] at this
        simp only [windowSecs] at hage
        omega
      · have : t = now := by simpa using h
        subst this
        simp only [windowSecs] at hage
        omega

/-- C7 witness: a key holding timestamps 0 and 100 checked at time 100 has the
stale timestamp 0 (age 100 ≥ 60) evicted by that check. -/
theorem rl_window_invariant_witness :
    (0 : Nat) ∉ (lookupKey (checkRateLimit [("k", [0, 100])] "k" 100).2 "k").getD [] :=
  (rl_window_invariant [("k", [0, 100])] "k" 100).2 0 (by decide) (by decide)

/-- C8: a `check()` for key `a` leaves any distinct key `b`'s stored list
unchanged, and therefore has no effect on whether `b`'s next request is
allowed. -/
theorem rl_keys_independent (m : RMap) (a b : String) (now now' : Nat) (hne : a ≠ b) :
    lookupKey (checkRateLimit m a now).2 b = lookupKey m b ∧
    (checkRateLimit (checkRateLimit m a now).2 b now').1
      = (checkRateLimit m b now').1 := by
  have h1 := lookupKey_check_other m a b now hne
  have h2 : ∀ mm : RMap, lookupKey mm b = lookupKey m b →
      (checkRateLimit mm b now').1 = (checkRateLimit m b now').1 := by
    intro mm hmm
    simp only [checkRateLimit, hmm]
    by_cases hp : maxRequests ≤ (((lookupKey m b).getD []).filter (inWindow now')).length
    · simp [hp]
    · simp [hp]
  exact ⟨h1, h2 _ h1⟩

/-- C8 witness: exhausting key "a" at time 0 leaves key "b"'s stored list and
its next verdict untouched. -/
theorem rl_keys_independent_witness :
    lookupKey (checkRateLimit [("b", [5])] "a" 0).2 "b" = lookupKey [("b", [5])] "b" ∧
    (checkRateLimit (checkRateLimit [("b", [5])] "a" 0).2 "b" 7).1
      = (checkRateLimit [("b", [5])] "b" 7).1 :=
  rl_keys_independent [("b", [5])] "a" "b" 0 7 (by decide)

/-- C9: if acquiring the limiter's lock finds it poisoned, `check()` fails
open — it returns `allow = true` for every key and leaves the map untouched
(src/main.rs:269-272, `Err(_) => return true`). -/
theorem rl_poisoned_fails_open (m : RMap) (ip : String) (now : Nat) :
    checkRateLimitEntry true m ip now = (true, m) := rfl

/-- Limiter maps reachable from the initial empty map by `check()` calls. -/
inductive ReachableRL : RMap → Prop where
  | init : ReachableRL []
  | step (m : RMap) (ip : String) (now : Nat) :
      ReachableRL m → ReachableRL (checkRateLimit m ip now).2

/-- C10: in every reachable limiter state, each key stores at most
`max_requests` (30) timestamps: a timestamp is appended only when the
post-eviction count is strictly below 30. -/
theorem rl_per_key_bound (m : RMap) (h : ReachableRL m) :
    ∀ ip l, lookupKey m ip = some l → l.length ≤ maxRequests := by
  induction h with
  | init => intro ip l hl; simp [lookupKey] at hl
  | step m ip now _ ih =>
    intro k l hl
    by_cases hk : ip = k
    · subst hk
      have hb : (((lookupKey m ip).getD []).filter (inWindow now)).length
          ≤ maxRequests := by
        cases hlk : lookupKey m ip with
        | none => simp
        | some l0 =>
          have hf : (((some l0).getD ([] : List Nat)).filter (inWindow now)).length
              ≤ l0.length := by
            simpa using List.length_filter_le _ l0
          exact le_trans hf (ih ip l0 hlk)
      by_cases hc :
          maxRequests ≤ (((lookupKey m ip).getD []).filter (inWindow now)).length
      · have heq : checkRateLimit m ip now
            = (false, setKey m ip (((lookupKey m ip).getD []).filter (inWindow now))) := by
          simp [checkRateLimit, hc]
        rw [heq, lookupKey_setKey_self] at hl
        cases hl
        exact hb
      · have heq : checkRateLimit m ip now
            = (true, setKey m ip
                ((((lookupKey m ip).getD []).filter (inWindow now)) ++ [now])) := by
          simp [checkRateLimit, hc]
        rw [heq, lookupKey_setKey_self] at hl
        cases hl
        simp only [List.length_append, List.length_singleton]
        omega
    · rw [lookupKey_check_other m ip k now hk] at hl
      exact ih k l hl

/-- C10 witness: the state reached by one allowed check stores one timestamp,
within the bound. -/
theorem rl_per_key_bound_witness :
    lookupKey (checkRateLimit [] "c" 0).2 "c" = some [0] ∧ ([0] : List Nat).length ≤ maxRequests :=
  ⟨by decide, rl_per_key_bound (checkRateLimit [] "c" 0).2
    (ReachableRL.step [] "c" 0 ReachableRL.init) "c" [0] (by decide)⟩

/-- A first check on a map with no binding for the key behaves exactly like a
first check on an empty binding (`entry(ip).or_default()`). -/
theorem checkRateLimit_nil (ip : String) (now : Nat) :
    checkRateLimit [] ip now = checkRateLimit [(ip, [])] ip now := by
  simp [checkRateLimit, lookupKey, setKey]

theorem runGate_nil_start (ip : String) (ts : List Nat) (h : ts ≠ []) :
    runGate [] ip ts = runGate [(ip, [])] ip ts := by
  cases ts with
  | nil => exact absurd rfl h
  | cons t rest => simp only [runGate, handleRateGate, checkRateLimit_nil]

theorem runGate_append (m : RMap) (ip : String) (xs ys : List Nat) :
    runGate m ip (xs ++ ys)
      = ((runGate m ip xs).1 ++ (runGate (runGate m ip xs).2 ip ys).1,
         (runGate (runGate m ip xs).2 ip ys).2) := by
  induction xs generalizing m with
  | nil => simp [runGate]
  | cons x xs ih => simp [runGate, ih]

/-- As long as the key's stored timestamps plus the pending arrivals fit the
quota and every pending arrival sees all earlier timestamps inside the window,
every arrival is allowed and the timestamps accumulate in order. -/
theorem runGate_allows (ip : String) (acc ts : List Nat)
    (hcross : ∀ a ∈ acc, ∀ t ∈ ts, t - a < windowSecs)
    (hpw : ts.Pairwise (fun a b => a ≤ b ∧ b - a < windowSecs))
    (hlen : acc.length + ts.length ≤ maxRequests) :
    runGate [(ip, acc)] ip ts
      = (List.replicate ts.length ConnStep.proceed, [(ip, acc ++ ts)]) := by
  induction ts generalizing acc with
  | nil => simp [runGate]
  | cons t ts ih =>
    rw [List.pairwise_cons] at hpw
    obtain ⟨hhead, htail⟩ := hpw
    have hfilter : acc.filter (inWindow t) = acc := by
      rw [List.filter_eq_self]
      intro a ha
      simp only [inWindow, decide_eq_true_eq]
      exact hcross a ha t (List.mem_cons_self t ts)
    have hlen2 : acc.length + (ts.length + 1) ≤ maxRequests := by
      simpa using hlen
    have hlt : ¬ (maxRequests ≤ (acc.filter (inWindow t)).length) := by
      rw [hfilter]
      omega
    have hstep : checkRateLimit [(ip, acc)] ip t = (true, [(ip, acc ++ [t])]) := by
      simp [checkRateLimit, lookupKey, hfilter, hlt, setKey]
      omega
    have hcross' : ∀ a ∈ acc ++ [t], ∀ s ∈ ts, s - a < windowSecs := by
      intro a ha s hs
      rcases List.mem_append.mp ha with h | h
      · exact hcross a h s (List.mem_cons_of_mem t hs)
      · have haeq : a = t := by simpa using h
        subst haeq
        exact (hhead s hs).2
    have hlen' : (acc ++ [t]).length + ts.length ≤ maxRequests := by
      simp only [List.length_append, List.length_singleton]
      omega
    have hrec := ih (acc ++ [t]) hcross' htail hlen'
    simp only [runGate, handleRateGate, hstep]
    simp [hrec, List.replicate_succ, List.append_assoc]

/-- C2: starting from no history for a key, 31 checks whose timestamps all lie
inside one trailing 60-second window produce 30 allowed connections followed
by one connection rejected with status `429 Too Many Requests`, content type
`text/plain`, and body `rate limit exceeded`. -/
theorem rl_first30_allowed_31st_rejected (ip : String) (ts : List Nat)
    (hlen : ts.length = 31)
    (hpw : ts.Pairwise (fun a b => a ≤ b ∧ b - a < windowSecs)) :
    (runGate [] ip ts).1
      = List.replicate 30 ConnStep.proceed
        ++ [ConnStep.rejected "429 Too Many Requests" "text/plain" "rate limit exceeded"] := by
  have hne : ts ≠ [] := by
    intro h
    rw [h] at hlen
    simp at hlen
  rw [runGate_nil_start ip ts hne]
  have hsplit : ts = ts.take 30 ++ ts.drop 30 := (List.take_append_drop 30 ts).symm
  have hpw2 : (ts.take 30 ++ ts.drop 30).Pairwise (fun a b => a ≤ b ∧ b - a < windowSecs) := by
    rw [← hsplit]; exact hpw
  obtain ⟨hpxs, hpys, hcr⟩ := List.pairwise_append.mp hpw2
  have hxlen : (ts.take 30).length = 30 := by rw [List.length_take]; omega
  have hylen : (ts.drop 30).length = 1 := by rw [List.length_drop]; omega
  obtain ⟨y, hy⟩ := List.length_eq_one.mp hylen
  have hall := runGate_allows ip [] (ts.take 30) (by intro a ha; simp at ha) hpxs
    (by rw [hxlen]; simp [maxRequests])
  rw [hsplit, runGate_append, hall]
  simp only [List.nil_append, hy, hxlen]
  have hfill : (ts.take 30).filter (inWindow y) = ts.take 30 := by
    rw [List.filter_eq_self]
    intro a ha
    have hr := hcr a ha y (by rw [hy]; exact List.mem_singleton_self y)
    simp only [inWindow, decide_eq_true_eq]
    exact hr.2
  have hdeny : checkRateLimit [(ip, ts.take 30)] ip y = (false, [(ip, ts.take 30)]) := by
    simp [checkRateLimit, lookupKey, hfill, setKey, hxlen, maxRequests]
  simp only [runGate, handleRateGate, hdeny]
  simp

/-- C2 witness: 31 requests from one key at the same instant — 30 allowed,
then a 429 rejection. -/
theorem rl_first30_allowed_31st_rejected_witness :
    (runGate [] "10.0.0.1" (List.replicate 31 0)).1
      = List.replicate 30 ConnStep.proceed
        ++ [ConnStep.rejected "429 Too Many Requests" "text/plain" "rate limit exceeded"] :=
  rl_first30_allowed_31st_rejected "10.0.0.1" (List.replicate 31 0) (by simp)
    (List.pairwise_replicate.mpr (Or.inr ⟨le_refl 0, by simp [windowSecs]⟩))

/-! ## Request framer (`read_request`, src/main.rs:98-143)

`read_request` accumulates raw bytes in `request`, re-decodes the whole buffer
with `String::from_utf8_lossy` after every read, searches the decoded string
for the header terminator, scans the decoded string's lines for a
`Content-Length` value, and stops per the conditions of the loop. The decoded
string is represented by the byte list of its UTF-8 encoding, so that
`str::find`'s byte offsets are exact. -/

/-- The UTF-8 encoding of U+FFFD, the replacement character. -/
def replChar : List Nat := [239, 191, 189]

/-- UTF-8 continuation byte. -/
def isCont (b : Nat) : Bool := decide (128 ≤ b ∧ b ≤ 191)

/-- Valid second byte for a three-byte sequence with lead byte `b`
(E0 requires A0..BF, ED requires 80..9F). -/
def cont3ok (b b2 : Nat) : Bool :=
  if b == 224 then decide (160 ≤ b2 ∧ b2 ≤ 191)
  else if b == 237 then decide (128 ≤ b2 ∧ b2 ≤ 159)
  else isCont b2

/-- Valid second byte for a four-byte sequence with lead byte `b`
(F0 requires 90..BF, F4 requires 80..8F). -/
def cont4ok (b b2 : Nat) : Bool :=
  if b == 240 then decide (144 ≤ b2 ∧ b2 ≤ 191)
  else if b == 244 then decide (128 ≤ b2 ∧ b2 ≤ 143)
  else isCont b2

/-- One character step of `String::from_utf8_lossy` at lead byte `b` with
input tail `rest`: the emitted bytes (the valid scalar's bytes, or one U+FFFD
for a maximal subpart of an ill-formed sequence) and the remaining input. -/
def lossyStep (b : Nat) (rest : List Nat) : List Nat × List Nat :=
  if b < 128 then ([b], rest)
  else if b < 194 then (replChar, rest)
  else if b ≤ 223 then
    match rest with
    | [] => (replChar, [])
    | b2 :: rest2 =>
      if isCont b2 then ([b, b2], rest2) else (replChar, b2 :: rest2)
  else if b ≤ 239 then
    match rest with
    | [] => (replChar, [])
    | b2 :: rest2 =>
      if cont3ok b b2 then
        match rest2 with
        | [] => (replChar, [])
        | b3 :: rest3 =>
          if isCont b3 then ([b, b2, b3], rest3) else (replChar, b3 :: rest3)
      else (replChar, b2 :: rest2)
  else if b ≤ 244 then
    match rest with
    | [] => (replChar, [])
    | b2 :: rest2 =>
      if cont4ok b b2 then
        match rest2 with
        | [] => (replChar, [])
        | b3 :: rest3 =>
          if isCont b3 then
            match rest3 with
            | [] => (replChar, [])
            | b4 :: rest4 =>
              if isCont b4 then ([b, b2, b3, b4], rest4) else (replChar, b4 :: rest4)
          else (replChar, b3 :: rest3)
      else (replChar, b2 :: rest2)
  else (replChar, rest)

/-- Iterates `lossyStep`; the fuel only bounds the number of characters
decoded and every step consumes at least one input byte, so any fuel at least
the input length is exact. -/
def utf8LossyF : Nat → List Nat → List Nat
  | _, [] => []
  | 0, _ :: _ => []
  | fuel + 1, b :: rest => (lossyStep b rest).1 ++ utf8LossyF fuel (lossyStep b rest).2

/-- `String::from_utf8_lossy` on a raw byte list, returning the UTF-8 bytes of
the decoded string: valid scalar sequences are copied through, and each
maximal subpart of an ill-formed sequence is replaced by one U+FFFD. -/
def utf8Lossy (l : List Nat) : List Nat := utf8LossyF l.length l

/-- Whether the pattern is a prefix of the list (`str::starts_with` on bytes). -/
def bytesStartWith : List Nat → List Nat → Bool
  | [], _ => true
  | _ :: _, [] => false
  | p :: ps, x :: xs => p == x && bytesStartWith ps xs

/-- `str::find(pat)`: byte index of the first occurrence of `pat`. -/
def findSub (pat : List Nat) : List Nat → Option Nat
  | [] => if bytesStartWith pat [] then some 0 else none
  | x :: xs =>
    if bytesStartWith pat (x :: xs) then some 0
    else (findSub pat xs).map (· + 1)

/-- The header terminator `\r\n\r\n` searched for at src/main.rs:115. -/
def headerTerm : List Nat := [13, 10, 13, 10]

/-- Splits at each `\n` byte (0x0A can only be the newline character in valid
UTF-8), keeping empty pieces; the baseline for `str::lines`. -/
def splitNL : List Nat → List (List Nat)
  | [] => [[]]
  | b :: rest =>
    if b == 10 then [] :: splitNL rest
    else
      match splitNL rest with
      | [] => [[b]]
      | p :: ps => (b :: p) :: ps

/-- Removes a single trailing `\r` (for lines produced by a `\r\n` ending). -/
def stripCR (l : List Nat) : List Nat :=
  match l.getLast? with
  | some 13 => l.dropLast
  | _ => l

/-- `str::lines` on the decoded bytes: split at `\n`, strip the `\r` of each
`\r\n` ending; a final unterminated piece is kept as-is (its trailing `\r`, if
any, is not part of a line ending), and a final empty piece (string ended with
`\n`) yields no extra line. -/
def linesOf (s : List Nat) : List (List Nat) :=
  let ps := splitNL s
  let front := ps.dropLast.map stripCR
  match ps.getLast? with
  | some [] => front
  | some l => front ++ [l]
  | none => front

/-- ASCII lowercasing, byte by byte. `str::to_lowercase` agrees with this for
the only use here — testing whether the lowercased line starts with the pure
ASCII pattern `content-length:` — because no non-ASCII character lowercases
onto any character of that pattern. -/
def asciiLower (l : List Nat) : List Nat :=
  l.map (fun b => if 65 ≤ b ∧ b ≤ 90 then b + 32 else b)

/-- The bytes of `content-length:`. -/
def clPat : List Nat := [99, 111, 110, 116, 101, 110, 116, 45, 108, 101, 110, 103, 116, 104, 58]

/-- `line.to_lowercase().starts_with("content-length:")` (src/main.rs:120). -/
def matchesCL (line : List Nat) : Bool := bytesStartWith clPat (asciiLower line)

/-- Drops everything up to and including the first `:`; `none` when the list
has no `:`. -/
def dropThroughColon : List Nat → Option (List Nat)
  | [] => none
  | b :: rest => if b == 58 then some rest else dropThroughColon rest

/-- `line.split(':').nth(1)` (src/main.rs:121): the text between the first and
second colon (to the end when there is no second colon). -/
def splitColonNth1 (l : List Nat) : Option (List Nat) :=
  (dropThroughColon l).map (fun r => r.takeWhile (fun b => !(b == 58)))

/-- Strips one leading Unicode-whitespace character (as its UTF-8 bytes). -/
def wsChop : List Nat → Option (List Nat)
  | 9 :: r => some r
  | 10 :: r => some r
  | 11 :: r => some r
  | 12 :: r => some r
  | 13 :: r => some r
  | 32 :: r => some r
  | 194 :: 133 :: r => some r
  | 194 :: 160 :: r => some r
  | 225 :: 154 :: 128 :: r => some r
  | 226 :: 128 :: b :: r =>
    if (128 ≤ b ∧ b ≤ 138) ∨ b = 168 ∨ b = 169 ∨ b = 175 then some r else none
  | 226 :: 129 :: 159 :: r => some r
  | 227 :: 128 :: 128 :: r => some r
  | _ => none

/-- Strips one trailing Unicode-whitespace character, working on the reversed
byte list (unambiguous on valid UTF-8). -/
def wsChopRev : List Nat → Option (List Nat)
  | 9 :: r => some r
  | 10 :: r => some r
  | 11 :: r => some r
  | 12 :: r => some r
  | 13 :: r => some r
  | 32 :: r => some r
  | 133 :: 194 :: r => some r
  | 160 :: 194 :: r => some r
  | 128 :: 154 :: 225 :: r => some r
  | 159 :: 129 :: 226 :: r => some r
  | 128 :: 128 :: 227 :: r => some r
  | b :: 128 :: 226 :: r =>
    if (128 ≤ b ∧ b ≤ 138) ∨ b = 168 ∨ b = 169 ∨ b = 175 then some r else none
  | _ => none

/-- Iterates a chopping step to a fixed point (fuelled by the list length). -/
def chopAll (chop : List Nat → Option (List Nat)) : Nat → List Nat → List Nat
  | 0, l => l
  | fuel + 1, l =>
    match chop l with
    | some r => chopAll chop fuel r
    | none => l

/-- `str::trim`: Unicode whitespace removed from both ends. -/
def trimBytes (l : List Nat) : List Nat :=
  let l1 := chopAll wsChop l.length l
  (chopAll wsChopRev l1.length l1.reverse).reverse

/-- ASCII digit. -/
def isDigitB (b : Nat) : Bool := decide (48 ≤ b ∧ b ≤ 57)

/-- Value of an ASCII digit string. -/
def digitsVal (l : List Nat) : Nat := l.foldl (fun acc b => acc * 10 + (b - 48)) 0

/-- `str::parse::<usize>()`: an optional leading `+`, then one or more ASCII
digits, rejecting values that overflow the 64-bit `usize`. -/
def parseUsize (l : List Nat) : Option Nat :=
  let l2 := match l with
    | 43 :: r => r
    | _ => l
  if l2 ≠ [] ∧ l2.all isDigitB then
    if digitsVal l2 < 2 ^ 64 then some (digitsVal l2) else none
  else none

/-- `len_str.trim().parse().unwrap_or(0)` applied to the `nth(1)` piece of the
matching line (src/main.rs:121-122); 0 when the line has no colon. -/
def clValue (line : List Nat) : Nat :=
  match splitColonNth1 line with
  | some v => (parseUsize (trimBytes v)).getD 0
  | none => 0

/-- The `content_length` extraction loop over `req_str.lines()`
(src/main.rs:119-125): the value of the first line whose lowercased form
starts with `content-length:`, and 0 when no line matches. -/
def scanCL : List (List Nat) → Nat
  | [] => 0
  | line :: rest => if matchesCL line then clValue line else scanCL rest

/-- Declared body length the framer uses for the raw buffer `req`: the scan
above over the lines of the lossy-decoded buffer. -/
def declaredLen (req : List Nat) : Nat := scanCL (linesOf (utf8Lossy req))

/-- `2^64`, for `usize` wrapping arithmetic. -/
def usizeMod : Nat := 2 ^ 64

/-- `request.len() - body_start` on `usize` (src/main.rs:128), with the
release-profile wrapping semantics; a debug build aborts when
`body_start > request.len()` instead (possible only when lossy decoding has
lengthened the buffer). -/
def usizeSub (a b : Nat) : Nat := (usizeMod + a - b) % usizeMod

/-- The loop's stop test at src/main.rs:115-134: the decoded buffer contains
`\r\n\r\n` and the bytes past the terminator cover the declared body length. -/
def frameComplete (req : List Nat) : Bool :=
  match findSub headerTerm (utf8Lossy req) with
  | some pos => decide (declaredLen req ≤ usizeSub req.length (pos + 4))
  | none => false

/-- The read-accumulate loop of `read_request` (src/main.rs:105-140) over the
chunks successively returned by `stream.read` (an empty chunk is a read that
returned 0). `none` means the chunk list was exhausted with the loop still
waiting on `stream.read` — the connection is stalled, no buffer is returned. -/
def readLoop : List (List Nat) → List Nat → Option (List Nat)
  | [], _ => none
  | c :: cs, req =>
    if c = [] then some req
    else
      let req2 := req ++ c
      if frameComplete req2 then some req2
      else if 16384 < req2.length then some req2
      else readLoop cs req2

/-- `read_request` (src/main.rs:98-143): the returned buffer (as raw bytes;
the caller then decodes it lossily once more). -/
def readRequest (chunks : List (List Nat)) : Option (List Nat) :=
  readLoop chunks []

/-! ### Framer lemmas -/

/-- Lossy decoding is the identity on ASCII bytes (with any sufficient fuel). -/
theorem utf8LossyF_ascii : ∀ (fuel : Nat) (l : List Nat), (∀ b ∈ l, b < 128) →
    l.length ≤ fuel → utf8LossyF fuel l = l := by
  intro fuel
  induction fuel with
  | zero =>
    intro l hb hl
    cases l with
    | nil => rfl
    | cons b rest => simp at hl
  | succ fuel ih =>
    intro l hb hl
    cases l with
    | nil => rfl
    | cons b rest =>
      have hb1 : b < 128 := hb b (List.mem_cons_self b rest)
      have hstep : lossyStep b rest = ([b], rest) := by simp [lossyStep, hb1]
      simp only [utf8LossyF, hstep]
      rw [ih rest (fun x hx => hb x (List.mem_cons_of_mem b hx))
        (by simp only [List.length_cons] at hl; omega)]
      rfl

/-- Lossy decoding is the identity on ASCII byte lists. -/
theorem utf8Lossy_ascii (l : List Nat) (hb : ∀ b ∈ l, b < 128) : utf8Lossy l = l :=
  utf8LossyF_ascii l.length l hb (le_refl _)

theorem utf8Lossy_replicate97 (n : Nat) :
    utf8Lossy (List.replicate n 97) = List.replicate n 97 :=
  utf8Lossy_ascii _ (by
    intro b hbm
    have hb := List.eq_of_mem_replicate hbm
    omega)

theorem findSub_term_replicate97 : ∀ n, findSub headerTerm (List.replicate n 97) = none := by
  intro n
  induction n with
  | zero => rfl
  | succ n ih =>
    rw [List.replicate_succ]
    rw [show findSub headerTerm (97 :: List.replicate n 97)
        = (findSub headerTerm (List.replicate n 97)).map (· + 1) from rfl]
    rw [ih]
    rfl

theorem frameComplete_replicate97 (n : Nat) : frameComplete (List.replicate n 97) = false := by
  simp only [frameComplete, utf8Lossy_replicate97, findSub_term_replicate97]

theorem replicate97_ne_nil (n : Nat) (h : 0 < n) : (List.replicate n 97 : List Nat) ≠ [] := by
  intro he
  have hl : (List.replicate n 97 : List Nat).length = n := List.length_replicate n 97
  rw [he] at hl
  simp only [List.length_nil] at hl
  omega

/-- A read loop step that hits no stop condition continues with the grown buffer. -/
theorem readLoop_cons_continue (c : List Nat) (cs : List (List Nat)) (req : List Nat)
    (hne : c ≠ []) (hfc : frameComplete (req ++ c) = false)
    (hlen : ¬ 16384 < (req ++ c).length) :
    readLoop (c :: cs) req = readLoop cs (req ++ c) := by
  simp only [readLoop]
  rw [if_neg hne, if_neg (show ¬ frameComplete (req ++ c) = true by rw [hfc]; simp),
    if_neg hlen]

/-- A read loop step that exceeds the hard cap returns the grown buffer. -/
theorem readLoop_cons_capstop (c : List Nat) (cs : List (List Nat)) (req : List Nat)
    (hne : c ≠ []) (hfc : frameComplete (req ++ c) = false)
    (hlen : 16384 < (req ++ c).length) :
    readLoop (c :: cs) req = some (req ++ c) := by
  simp only [readLoop]
  rw [if_neg hne, if_neg (show ¬ frameComplete (req ++ c) = true by rw [hfc]; simp),
    if_pos hlen]

/-- The bytes of three successive reads (8192, 8192 and 1 bytes of `a`) with
no header terminator anywhere. -/
def overflowChunks : List (List Nat) :=
  [List.replicate 8192 97, List.replicate 8192 97, [97]]

/-- C3 counterexample: on a terminator-free stream delivering 8192-byte reads,
`read_request` returns a 16385-byte buffer — the returned buffer exceeds the
16384-byte cap, because the cap test `request.len() > 16384` runs only after a
chunk has been appended. -/
theorem framer_returns_over_cap :
    readRequest overflowChunks = some (List.replicate 16385 97) ∧
    16384 < (List.replicate 16385 97).length := by
  have e1 : (List.replicate 8192 97 ++ List.replicate 8192 97 : List Nat)
      = List.replicate 16384 97 := by
    rw [← List.replicate_add]
  have e2 : (List.replicate 16384 97 ++ [97] : List Nat) = List.replicate 16385 97 := by
    rw [show ([97] : List Nat) = List.replicate 1 97 from rfl, ← List.replicate_add]
  have hne1 : (List.replicate 8192 97 : List Nat) ≠ [] := replicate97_ne_nil 8192 (by norm_num)
  have hfc1 : frameComplete (([] : List Nat) ++ List.replicate 8192 97) = false := by
    rw [List.nil_append]
    exact frameComplete_replicate97 8192
  have hlen1 : ¬ 16384 < (([] : List Nat) ++ List.replicate 8192 97).length := by
    rw [List.nil_append, List.length_replicate]
    norm_num
  have hfc2 : frameComplete (List.replicate 8192 97 ++ List.replicate 8192 97) = false := by
    rw [e1]
    exact frameComplete_replicate97 16384
  have hlen2 : ¬ 16384 < ((List.replicate 8192 97 ++ List.replicate 8192 97 : List Nat)).length := by
    rw [e1, List.length_replicate]
    norm_num
  have hne3 : ([97] : List Nat) ≠ [] := by simp
  have hfc3 : frameComplete (List.replicate 16384 97 ++ [97]) = false := by
    rw [e2]
    exact frameComplete_replicate97 16385
  have hlen3 : 16384 < ((List.replicate 16384 97 ++ [97] : List Nat)).length := by
    rw [e2, List.length_replicate]
    norm_num
  constructor
  · show readLoop overflowChunks [] = _
    unfold overflowChunks
    rw [readLoop_cons_continue _ _ _ hne1 hfc1 hlen1, List.nil_append,
      readLoop_cons_continue _ _ _ hne1 hfc2 hlen2, e1,
      readLoop_cons_capstop _ _ _ hne3 hfc3 hlen3, e2]
  · rw [List.length_replicate]
    norm_num

theorem framer_cap_bound_aux : ∀ (chunks : List (List Nat)) (req buf : List Nat),
    (∀ c ∈ chunks, c.length ≤ 8192) → req.length ≤ 16384 →
    readLoop chunks req = some buf → buf.length ≤ 16384 + 8192 := by
  intro chunks
  induction chunks with
  | nil =>
    intro req buf _ _ hres
    simp [readLoop] at hres
  | cons c cs ih =>
    intro req buf hchunk hreq hres
    have hlc : c.length ≤ 8192 := hchunk c (List.mem_cons_self c cs)
    by_cases hc : c = []
    · subst hc
      rw [show readLoop ([] :: cs) req = some req from rfl] at hres
      simp only [Option.some.injEq] at hres
      subst hres
      omega
    · simp only [readLoop, if_neg hc] at hres
      by_cases hfc : frameComplete (req ++ c) = true
      · rw [if_pos hfc, Option.some.injEq] at hres
        subst hres
        simp only [List.length_append]
        omega
      · rw [if_neg hfc] at hres
        by_cases hcap : 16384 < (req ++ c).length
        · rw [if_pos hcap, Option.some.injEq] at hres
          subst hres
          simp only [List.length_append]
          omega
        · rw [if_neg hcap] at hres
          refine ih (req ++ c) buf (fun d hd => hchunk d (List.mem_cons_of_mem c hd)) ?_ hres
          simp only [List.length_append] at hcap ⊢
          omega

/-- C3 amended: with every read bounded by the 8192-byte read buffer, any
buffer `read_request` returns has at most 16384 + 8192 bytes — the hard cap
plus one chunk — and reading always stops once the accumulated size exceeds
16384 bytes. -/
theorem framer_cap_plus_chunk (chunks : List (List Nat)) (buf : List Nat)
    (hchunk : ∀ c ∈ chunks, c.length ≤ 8192)
    (hres : readRequest chunks = some buf) :
    buf.length ≤ 16384 + 8192 :=
  framer_cap_bound_aux chunks [] buf hchunk (by simp) hres

/-- C3 amended witness: a stream closed at once returns an empty buffer,
within the bound. -/
theorem framer_cap_plus_chunk_witness :
    readRequest [([] : List Nat)] = some [] ∧ ([] : List Nat).length ≤ 16384 + 8192 :=
  ⟨rfl, framer_cap_plus_chunk [[]] [] (by decide) rfl⟩

/-! ### Content-Length scan (C4) -/

theorem scanCL_no_match : ∀ (ls : List (List Nat)),
    (∀ line ∈ ls, matchesCL line = false) → scanCL ls = 0 := by
  intro ls
  induction ls with
  | nil => intro _; rfl
  | cons line rest ih =>
    intro h
    have h1 : matchesCL line = false := h line (List.mem_cons_self _ _)
    simp only [scanCL, h1, Bool.false_eq_true, if_false]
    exact ih (fun l hl => h l (List.mem_cons_of_mem _ hl))

theorem scanCL_first_match : ∀ (pre : List (List Nat)) (line : List Nat)
    (post : List (List Nat)), (∀ l2 ∈ pre, matchesCL l2 = false) →
    matchesCL line = true → scanCL (pre ++ line :: post) = clValue line := by
  intro pre
  induction pre with
  | nil =>
    intro line post _ hm
    simp [scanCL, hm]
  | cons p pre ih =>
    intro line post hpre hm
    have hp : matchesCL p = false := hpre p (List.mem_cons_self _ _)
    simp only [List.cons_append, scanCL, hp, Bool.false_eq_true, if_false]
    exact ih line post (fun l hl => hpre l (List.mem_cons_of_mem _ hl)) hm

/-- C4 amended: the declared body length is derived by scanning ALL lines of
the accumulated (lossily decoded) request — headers and any body bytes already
read alike — taking the first line whose lowercased form starts with
`content-length:`; its value (the trimmed text between the first and second
colon) is parsed as a non-negative integer, defaulting to 0, and the result is
0 when no line matches. -/
theorem content_length_scan (req : List Nat) :
    ((∀ line ∈ linesOf (utf8Lossy req), matchesCL line = false) → declaredLen req = 0) ∧
    (∀ pre line post, linesOf (utf8Lossy req) = pre ++ line :: post →
      (∀ l2 ∈ pre, matchesCL l2 = false) → matchesCL line = true →
      declaredLen req = clValue line) := by
  constructor
  · intro h
    exact scanCL_no_match _ h
  · intro pre line post heq hpre hm
    unfold declaredLen
    rw [heq]
    exact scanCL_first_match pre line post hpre hm

/-- The bytes of `content-length: 7`. -/
def clSimpleReq : List Nat :=
  [99, 111, 110, 116, 101, 110, 116, 45, 108, 101, 110, 103, 116, 104, 58, 32, 55]

/-- C4 witness: a buffer whose single line declares `content-length: 7`. -/
theorem content_length_scan_witness : declaredLen clSimpleReq = 7 := by
  have h := (content_length_scan clSimpleReq).2 [] clSimpleReq []
    (by decide) (by simp) (by decide)
  rw [h]
  decide

/-- Follows the spec's words, for comparison with `declaredLen` (C4): the same
scan restricted to the header lines preceding the `\r\n\r\n` terminator. -/
def declaredLenSpec (req : List Nat) : Nat :=
  match findSub headerTerm (utf8Lossy req) with
  | some pos => scanCL (linesOf ((utf8Lossy req).take pos))
  | none => 0

/-- The bytes of `GET / HTTP/1.1\r\n\r\ncontent-length: 99` — no
Content-Length header, but a body that contains one literal such line. -/
def bodyCLReq : List Nat :=
  [71, 69, 84, 32, 47, 32, 72, 84, 84, 80, 47, 49, 46, 49, 13, 10, 13, 10,
   99, 111, 110, 116, 101, 110, 116, 45, 108, 101, 110, 103, 116, 104, 58, 32, 57, 57]

/-- C4 counterexample: on `bodyCLReq` the framer's derived length is 99 — the
scan at src/main.rs:119-125 walks every line of the buffer, body included —
whereas a scan of only the header lines preceding the terminator gives 0; as
a consequence `read_request` keeps waiting for 99 body bytes instead of
returning the complete bodyless request. -/
theorem content_length_reads_body :
    declaredLen bodyCLReq = 99 ∧ declaredLenSpec bodyCLReq = 0 ∧
    readRequest [bodyCLReq] = none := by
  exact ⟨by decide, by decide, by decide⟩

/-! ### Framer stop conditions (C5) -/

/-- The buffer-dependent stop conditions of the read loop, checked after each
chunk is appended (src/main.rs:115-139): frame complete, or cap exceeded. -/
def stopAfter (req : List Nat) : Bool :=
  frameComplete req || decide (16384 < req.length)

theorem readLoop_through : ∀ (front rest : List (List Nat)) (acc : List Nat),
    (∀ c ∈ front, c ≠ []) →
    (∀ j, j < front.length → stopAfter (acc ++ (front.take (j + 1)).flatten) = false) →
    readLoop (front ++ rest) acc = readLoop rest (acc ++ front.flatten) := by
  intro front
  induction front with
  | nil =>
    intro rest acc _ _
    simp
  | cons c front ih =>
    intro rest acc hne hns
    have hc : c ≠ [] := hne c (List.mem_cons_self _ _)
    have h0 : stopAfter (acc ++ c) = false := by
      have := hns 0 (by simp)
      simpa using this
    have hfc : frameComplete (acc ++ c) = false := by
      cases hfcb : frameComplete (acc ++ c) with
      | false => rfl
      | true =>
        rw [stopAfter, hfcb] at h0
        simp at h0
    have hcap : ¬ 16384 < (acc ++ c).length := by
      rw [stopAfter, hfc] at h0
      simpa using h0
    rw [List.cons_append, readLoop_cons_continue c (front ++ rest) acc hc hfc hcap]
    rw [ih rest (acc ++ c) (fun d hd => hne d (List.mem_cons_of_mem _ hd)) ?_]
    · rw [List.flatten_cons, ← List.append_assoc]
    · intro j hj
      have := hns (j + 1) (by simpa using Nat.succ_lt_succ hj)
      simpa [List.take_succ_cons, List.flatten_cons, List.append_assoc] using this

/-- C5 amended: as long as no stop condition has triggered on the chunks read
so far, (a) a further read that makes the buffer pass the code's completion
test — the buffer's lossy decoding contains the header terminator and the raw
buffer length minus the terminator's end offset *in the decoded string*
covers the declared body length (this equals the count of bytes following the
terminator exactly when the bytes decode losslessly, e.g. pure ASCII) —
returns that buffer at once, and (b) a read that yields zero bytes (peer
closed early) returns exactly what has accumulated. -/
theorem framer_stop_conditions (front : List (List Nat)) (c : List Nat)
    (rest : List (List Nat))
    (hne : ∀ d ∈ front, d ≠ [])
    (hns : ∀ j, j < front.length → stopAfter ((front.take (j + 1)).flatten) = false) :
    (c ≠ [] → frameComplete (front.flatten ++ c) = true →
      readRequest (front ++ c :: rest) = some (front.flatten ++ c)) ∧
    readRequest (front ++ [] :: rest) = some front.flatten := by
  have hns2 : ∀ j, j < front.length →
      stopAfter (([] : List Nat) ++ (front.take (j + 1)).flatten) = false := by
    intro j hj
    simpa using hns j hj
  constructor
  · intro hcne hfct
    show readLoop (front ++ c :: rest) [] = _
    rw [readLoop_through front (c :: rest) [] hne hns2, List.nil_append]
    simp only [readLoop]
    rw [if_neg hcne, if_pos hfct]
  · show readLoop (front ++ [] :: rest) [] = _
    rw [readLoop_through front ([] :: rest) [] hne hns2, List.nil_append]
    rfl

/-- The bytes of `GET / HTTP/1.1\r\n\r\n`. -/
def getRootReq : List Nat :=
  [71, 69, 84, 32, 47, 32, 72, 84, 84, 80, 47, 49, 46, 49, 13, 10, 13, 10]

/-- C5 witness: a single read delivering a complete bodyless request is
returned at once. -/
theorem framer_stop_conditions_witness : readRequest [getRootReq] = some getRootReq := by
  have h := (framer_stop_conditions [] getRootReq [] (by simp)
    (by intro j hj; simp at hj)).1 (by decide) (by decide)
  simpa using h

/-- The bytes of `X: \xFF\r\nContent-Length: 5\r\n\r\nABCDE`: a header line
holding one invalid UTF-8 byte (0xFF), a declared body length of 5, and
exactly the 5 declared body bytes after the terminator. -/
def lossyHdrReq : List Nat :=
  [88, 58, 32, 255, 13, 10,
   67, 111, 110, 116, 101, 110, 116, 45, 76, 101, 110, 103, 116, 104, 58, 32, 53,
   13, 10, 13, 10, 65, 66, 67, 68, 69]

/-- C5 counterexample: the raw buffer contains the header terminator at
offset 23 and the 5 bytes following it cover the declared body length 5 — the
condition under which, as claimed, the framer returns the buffer — yet the
code's completion test fails and `read_request` keeps reading: lossy decoding
expands 0xFF to three bytes, so `body_start` is 29 in the decoded string while
`request.len()` is the raw 32, and `body_received` comes out 3 < 5
(src/main.rs:115-131 mixes the two units). -/
theorem framer_mixed_units_counterexample :
    findSub headerTerm lossyHdrReq = some 23 ∧
    declaredLen lossyHdrReq = 5 ∧
    lossyHdrReq.length = 32 ∧
    declaredLen lossyHdrReq ≤ lossyHdrReq.length - (23 + 4) ∧
    frameComplete lossyHdrReq = false ∧
    readRequest [lossyHdrReq] = none := by
  exact ⟨by decide, by decide, by decide, by decide, by decide, by decide⟩

/-! ## Thread pool worker loop (`ThreadPool::new`, src/main.rs:30-50) -/

/-- A job as queued in the pool (a boxed closure); `raises` embeds whether
running the closure raises a failure (a Rust panic) instead of returning. -/
structure PoolJob where
  raises : Bool

/-- The worker loop spawned by `ThreadPool::new` (src/main.rs:40-46):
`while let Ok(job) = rx.lock().unwrap().recv() { job(); }`, run over the
stream of jobs this worker receives from the shared channel. The loop body is
the bare call `job()` with no recover/catch wrapper, so per Rust unwinding
semantics a failure raised inside a job propagates out of the loop and
terminates the thread. Returns how many jobs the worker started running and
whether it is still alive (back on `recv()`) afterwards. -/
def workerRun : List PoolJob → Nat × Bool
  | [] => (0, true)
  | j :: js =>
    if j.raises then (1, false)
    else
      let r := workerRun js
      (r.1 + 1, r.2)

/-- C1: the failure of a job is NOT contained at the per-job boundary. A
worker given a stream of two jobs whose first raises a failure runs only that
first job and is no longer dequeuing afterwards — the job submitted after the
failing one is never executed by this worker, because the loop at
src/main.rs:42-45 has no recover/catch wrapper around `job()`. -/
theorem worker_dies_on_failing_job :
    workerRun [⟨true⟩, ⟨false⟩] = (1, false) ∧ (workerRun [⟨false⟩, ⟨false⟩]).2 = true :=
  ⟨rfl, rfl⟩

end IpLookup
